import Mathlib

/-!
Verification of the obibuf protocol core against its specification.

The C sources are embedded shallowly: byte buffers are `List Nat` (each
element a byte value below 256), C `double` arithmetic is modelled over `ℝ`,
fallible functions return `Except`.  Definitions follow the source files
`obi_validator.c`, the normalizer/automaton/validator translation unit, and
`obibuf/core/audit/audit.c`.
-/

/-- Result codes of the protocol (`obi_result_t`). -/
inductive ObiResult where
  | OBI_SUCCESS
  | OBI_ERROR_INVALID_INPUT
  | OBI_ERROR_VALIDATION_FAILED
  | OBI_ERROR_AUDIT_REQUIRED
  | OBI_ERROR_ZERO_TRUST_VIOLATION
  | OBI_ERROR_BUFFER_OVERFLOW
  | OBI_ERROR_NUMERICAL_INSTABILITY
  | OBI_ERROR_SINPHASE_VIOLATION
  | OBI_ERROR_NORMALIZATION_FAILED
  | OBI_ERROR_DFA_TRANSITION_FAILED
  deriving DecidableEq, Repr

/-! ## Normalizer (USCN), from the normalizer translation unit -/

/-- `USCN_CANONICAL_BUFFER_SIZE` from the normalizer source. -/
def USCN_CANONICAL_BUFFER_SIZE : Nat := 8192

/-- One row of the `uscn_mappings` table: `(encoded_form, canonical_form)`
as byte lists (the C table stores NUL-terminated strings plus lengths). -/
structure UscnMapping where
  encoded : List Nat
  canonical : List Nat
  deriving DecidableEq, Repr

/-- The `uscn_mappings` table of the normalizer, in source order.
Bytes: `%`=37, `2`=50, `e`=101, `f`=102, `c`=99, `a`=97, `0`=48,
`.`=46, `/`=47, space=32.  The table is exactly:
`%2e%2e%2f -> ../`, `%c0%af -> ../`, `.%2e/ -> ../`, `%2e%2e/ -> ../`,
`%2f -> /`, `%2e -> .`, `%20 -> space`, `%c0%ae -> .`, `%c0%af -> /`
(the last row is shadowed by the second, as in the source). -/
def uscn_mappings : List UscnMapping :=
  [ ⟨[37,50,101,37,50,101,37,50,102], [46,46,47]⟩,
    ⟨[37,99,48,37,97,102], [46,46,47]⟩,
    ⟨[46,37,50,101,47], [46,46,47]⟩,
    ⟨[37,50,101,37,50,101,47], [46,46,47]⟩,
    ⟨[37,50,102], [47]⟩,
    ⟨[37,50,101], [46]⟩,
    ⟨[37,50,48], [32]⟩,
    ⟨[37,99,48,37,97,101], [46]⟩,
    ⟨[37,99,48,37,97,102], [47]⟩ ]

/-- Byte-exact prefix test: the `memcmp(input + input_pos, encoded_form,
encoded_len) == 0` comparison of `apply_character_mappings`. -/
def encMatches : List Nat → List Nat → Bool
  | [], _ => true
  | _ :: _, [] => false
  | e :: es, c :: cs => e == c && encMatches es cs

/-- The inner `for` loop over `uscn_mappings` in `apply_character_mappings`:
the first table row whose encoded form is a byte-exact prefix of the
remaining input and whose canonical form fits the output buffer. -/
def findMapping (input : List Nat) (outLen : Nat) : Option UscnMapping :=
  uscn_mappings.find?
    (fun m => encMatches m.encoded input &&
      decide (outLen + m.canonical.length < USCN_CANONICAL_BUFFER_SIZE))

/-- The `while` loop of `apply_character_mappings`.  Each iteration consumes
at least one input byte, so fuel equal to the input length is exact; the
loop also stops once the output holds `USCN_CANONICAL_BUFFER_SIZE - 1`
bytes, mirroring `output_pos < output_max - 1`. -/
def acmGo : Nat → List Nat → List Nat → List Nat
  | 0, _, out => out
  | _ + 1, [], out => out
  | fuel + 1, c :: rest, out =>
    if USCN_CANONICAL_BUFFER_SIZE - 1 ≤ out.length then out
    else
      match findMapping (c :: rest) out.length with
      | some m => acmGo fuel ((c :: rest).drop m.encoded.length) (out ++ m.canonical)
      | none => acmGo fuel rest (out ++ [c])

/-- `apply_character_mappings` (phase 1 of `obi_normalize_buffer`),
with `output_max = USCN_CANONICAL_BUFFER_SIZE` as at its only call site. -/
def apply_character_mappings (input : List Nat) : List Nat :=
  acmGo input.length input []

/-- ASCII `tolower`, as applied bytewise by `normalize_case`. -/
def byte_tolower (c : Nat) : Nat :=
  if 65 ≤ c ∧ c ≤ 90 then c + 32 else c

/-- `normalize_case` (phase 2): fold A–Z to a–z unless case-sensitive. -/
def normalize_case (l : List Nat) (case_sensitive : Bool) : List Nat :=
  if case_sensitive then l else l.map byte_tolower

/-- C `isspace` on the six ASCII whitespace bytes. -/
def byte_isspace (c : Nat) : Bool :=
  c == 32 || (9 ≤ c && c ≤ 13)

/-- The collapsing pass of `normalize_whitespace`: any maximal whitespace
run becomes one space; the `Bool` argument is the `in_whitespace` flag. -/
def nwCollapse : List Nat → Bool → List Nat
  | [], _ => []
  | c :: rest, inWs =>
    if byte_isspace c then
      if inWs then nwCollapse rest true else 32 :: nwCollapse rest true
    else c :: nwCollapse rest false

/-- The trailing-trim loop of `normalize_whitespace`: drop every trailing
space byte. -/
def trimTrailingSpaces (l : List Nat) : List Nat :=
  (l.reverse.dropWhile (fun c => c == 32)).reverse

/-- `normalize_whitespace` (phase 3 of `obi_normalize_buffer`). -/
def normalize_whitespace (l : List Nat) : List Nat :=
  trimTrailingSpaces (nwCollapse l false)

/-- Normalizer state (`struct obi_normalizer`), configuration part. -/
structure ObiNormalizer where
  case_sensitive : Bool
  whitespace_normalize : Bool
  deriving DecidableEq, Repr

/-- `obi_normalizer_create` defaults: `case_sensitive = false`,
`whitespace_normalize = true`. -/
def obi_normalizer_create : ObiNormalizer := ⟨false, true⟩

/-- The canonical bytes a successful `obi_normalize_buffer` stores back into
the buffer: the three phases in source order. -/
def canonical_form (nz : ObiNormalizer) (data : List Nat) : List Nat :=
  let t2 := normalize_case (apply_character_mappings data) nz.case_sensitive
  if nz.whitespace_normalize then normalize_whitespace t2 else t2

/-- `obi_normalize_buffer`: phase 1, the emptiness check on the phase-1
output, phases 2 and 3, the `USCN_CANONICAL_BUFFER_SIZE` bound, the
`max_size` bound, then the buffer update.  The `.ok` payload is the new
buffer content (`normalized` is set on this path). -/
def obi_normalize_buffer (nz : ObiNormalizer) (data : List Nat) (max_size : Nat) :
    Except ObiResult (List Nat) :=
  let t1 := apply_character_mappings data
  if t1.length = 0 then .error .OBI_ERROR_NORMALIZATION_FAILED
  else
    let t2 := normalize_case t1 nz.case_sensitive
    let t3 := if nz.whitespace_normalize then normalize_whitespace t2 else t2
    if USCN_CANONICAL_BUFFER_SIZE ≤ t3.length then .error .OBI_ERROR_BUFFER_OVERFLOW
    else if max_size < t3.length then .error .OBI_ERROR_BUFFER_OVERFLOW
    else .ok t3

/-- C2: the four path-traversal spellings `../`, `%2e%2e%2f`, `%c0%af`,
`.%2e/` all normalize to the bit-identical canonical bytes `../` under
`obi_normalize_buffer` with the default normalizer and an 8192-byte buffer. -/
theorem normalize_confluence_traversal_class :
    obi_normalize_buffer obi_normalizer_create [46,46,47] 8192 = .ok [46,46,47] ∧
    obi_normalize_buffer obi_normalizer_create [37,50,101,37,50,101,37,50,102] 8192 =
      .ok [46,46,47] ∧
    obi_normalize_buffer obi_normalizer_create [37,99,48,37,97,102] 8192 = .ok [46,46,47] ∧
    obi_normalize_buffer obi_normalizer_create [46,37,50,101,47] 8192 = .ok [46,46,47] :=
  ⟨rfl, rfl, rfl, rfl⟩

/-- C1: normalization is not idempotent.  On the input `%2E` (bytes
`[37,50,69]`) one application yields `%2e` (the table match is byte-exact,
so the upper-case spelling is not mapped, and case folding then lowers it),
while a second application maps `%2e` to `.`. -/
theorem normalize_idempotence_fails_at_uppercase_percent :
    obi_normalize_buffer obi_normalizer_create [37,50,69] 8192 = .ok [37,50,101] ∧
    obi_normalize_buffer obi_normalizer_create [37,50,101] 8192 = .ok [46] ∧
    [37,50,101] ≠ [46] :=
  ⟨rfl, rfl, by decide⟩

/-- C3: the multi-byte mapping pass is not case-insensitive on hex digits.
`%2F` (bytes `[37,50,70]`) normalizes to `%2f`, while its lower-case
spelling `%2f` normalizes to `/`; the two canonical forms differ. -/
theorem mapping_hex_case_sensitivity_fails :
    obi_normalize_buffer obi_normalizer_create [37,50,70] 8192 = .ok [37,50,102] ∧
    obi_normalize_buffer obi_normalizer_create [37,50,102] 8192 = .ok [47] ∧
    [37,50,102] ≠ [47] :=
  ⟨rfl, rfl, by decide⟩

/-- C6 counterexample: a whitespace-only buffer (one space byte) becomes
empty after whitespace folding, yet `obi_normalize_buffer` returns success
with an empty canonical form; and an output exceeding `max_size` yields
`BUFFER_OVERFLOW`, not `NORMALIZATION_FAILED`. -/
theorem normalize_empty_after_whitespace_succeeds :
    obi_normalize_buffer obi_normalizer_create [32] 8192 = .ok [] ∧
    obi_normalize_buffer obi_normalizer_create [97,98] 1 =
      .error .OBI_ERROR_BUFFER_OVERFLOW ∧
    ObiResult.OBI_ERROR_BUFFER_OVERFLOW ≠ ObiResult.OBI_ERROR_NORMALIZATION_FAILED :=
  ⟨rfl, rfl, by decide⟩

/-! ## Automaton (DFA), from the automaton translation unit -/

/-- `normalize_character`: the character-level `uscn_mappings` table of the
automaton file.  Tab, LF, VT, FF, CR map to space; A–Z map to a–z;
all other bytes (including a–z and 0–9) are returned unchanged. -/
def normalize_character (c : Nat) : Nat :=
  if c = 9 ∨ c = 10 ∨ c = 13 ∨ c = 11 ∨ c = 12 then 32
  else if 65 ≤ c ∧ c ≤ 90 then c + 32
  else c

/-- The `state_count` set by `initialize_default_states`. -/
def automaton_state_count : Nat := 6

/-- Which states are accepting per `initialize_default_states`: only
state 4 (`CANONICAL_ACCEPT`). -/
def state_is_accepting (s : Nat) : Bool := s == 4

/-- The transition table built by `build_transition_table`.  Every cell is
initialized to the reject state 5, then the rows for states 0–3 are filled
in; later assignments overwrite earlier ones exactly as in the source
(in state 3: `,` to 1 and `}` to 4 overwrite the printable-ASCII fill,
`"` stays at 3, `\` stays at 5). -/
def transition_table (s c : Nat) : Nat :=
  if s = 0 then
    if c = 123 then 1
    else if c = 32 ∨ c = 9 ∨ c = 10 ∨ c = 13 then 0
    else 5
  else if s = 1 then
    if c = 34 then 2
    else if c = 32 then 1
    else if c = 125 then 4
    else 5
  else if s = 2 then
    if c = 34 then 3
    else if (97 ≤ c ∧ c ≤ 122) ∨ (65 ≤ c ∧ c ≤ 90) ∨ (48 ≤ c ∧ c ≤ 57) ∨ c = 95 then 2
    else 5
  else if s = 3 then
    if c = 44 then 1
    else if c = 125 then 4
    else if c = 34 then 3
    else if c = 92 then 5
    else if 32 ≤ c ∧ c ≤ 126 then 3
    else 5
  else 5

/-- The per-byte loop of `obi_automaton_process`, from a given current
state: normalize the byte, look up the transition, fail with
`DFA_TRANSITION_FAILED` on an out-of-range target, fail with
`VALIDATION_FAILED` on the reject state, and at end of input require an
accepting state. -/
def procRun : Nat → List Nat → ObiResult
  | s, [] =>
    if state_is_accepting s then .OBI_SUCCESS else .OBI_ERROR_VALIDATION_FAILED
  | s, c :: rest =>
    let ns := transition_table s (normalize_character c)
    if automaton_state_count ≤ ns then .OBI_ERROR_DFA_TRANSITION_FAILED
    else if ns = 5 then .OBI_ERROR_VALIDATION_FAILED
    else procRun ns rest

/-- `obi_automaton_process` on a buffer's bytes (the automaton is reset to
state 0 at entry). -/
def obi_automaton_process (input : List Nat) : ObiResult :=
  procRun 0 input

/-- Whether the per-byte loop, started in state `s`, enters the reject
state 5 at some point while consuming the given bytes. -/
def entersReject : Nat → List Nat → Bool
  | _, [] => false
  | s, c :: rest =>
    let ns := transition_table s (normalize_character c)
    if automaton_state_count ≤ ns then false
    else if ns = 5 then true
    else entersReject ns rest

/-- Once the run enters the reject state, processing aborts with
`VALIDATION_FAILED` no matter what bytes follow. -/
theorem procRun_reject_append (pre : List Nat) :
    ∀ (s : Nat) (rest : List Nat), entersReject s pre = true →
      procRun s (pre ++ rest) = .OBI_ERROR_VALIDATION_FAILED := by
  induction pre with
  | nil => intro s rest h; simp [entersReject] at h
  | cons c pre ih =>
    intro s rest h
    rw [List.cons_append]
    simp only [entersReject] at h
    simp only [procRun]
    by_cases h6 : automaton_state_count ≤ transition_table s (normalize_character c)
    · simp [h6] at h
    · by_cases h5 : transition_table s (normalize_character c) = 5
      · simp [h6, h5, automaton_state_count]
      · simp only [h6, h5, if_false] at h ⊢
        exact ih _ rest h

/-- C7: the reject state is absorbing (`δ(5, c) = 5` for every byte `c`),
and once `obi_automaton_process` enters the reject state on some prefix,
the outcome is `VALIDATION_FAILED` regardless of the remaining bytes. -/
theorem reject_state_absorbing :
    (∀ c : Nat, transition_table 5 c = 5) ∧
    ∀ (pre rest : List Nat), entersReject 0 pre = true →
      obi_automaton_process (pre ++ rest) = .OBI_ERROR_VALIDATION_FAILED :=
  ⟨fun _ => rfl, fun pre rest h => procRun_reject_append pre 0 rest h⟩

/-- Witness for C7 at a concrete input: `{x` enters the reject state, and
the extended input `{x}"` is rejected with `VALIDATION_FAILED`. -/
theorem reject_state_absorbing_witness :
    entersReject 0 [123, 120] = true ∧
    obi_automaton_process ([123, 120] ++ [125, 34]) = .OBI_ERROR_VALIDATION_FAILED :=
  ⟨by decide, reject_state_absorbing.2 [123, 120] [125, 34] (by decide)⟩

/-- From the `JSON_START` state 1, any number of spaces followed by `}`
reaches the accepting state and succeeds. -/
theorem procRun_one_spaces (n : Nat) :
    procRun 1 (List.replicate n 32 ++ [125]) = .OBI_SUCCESS := by
  induction n with
  | zero => rfl
  | succ k ih =>
    rw [List.replicate_succ, List.cons_append]
    exact ih

/-- C10: the automaton accepts the empty object: `{}` succeeds, and so does
`{` followed by any number of spaces and then `}`. -/
theorem automaton_accepts_empty_object :
    obi_automaton_process [123, 125] = .OBI_SUCCESS ∧
    ∀ n : Nat, obi_automaton_process (123 :: (List.replicate n 32 ++ [125])) =
      .OBI_SUCCESS := by
  refine ⟨rfl, fun n => ?_⟩
  show procRun 0 (123 :: (List.replicate n 32 ++ [125])) = .OBI_SUCCESS
  have h : procRun 0 (123 :: (List.replicate n 32 ++ [125])) =
      procRun 1 (List.replicate n 32 ++ [125]) := rfl
  rw [h]
  exact procRun_one_spaces n

/-! ## Audit log, from `obibuf/core/audit/audit.c` -/

/-- One step of `calculate_fnv1a_hash`: xor in the byte, multiply by the
FNV-1a prime, on 32-bit unsigned arithmetic. -/
def fnv1a_step (h b : Nat) : Nat :=
  ((h ^^^ b) * 16777619) % 2 ^ 32

/-- `calculate_fnv1a_hash` over a byte sequence, offset basis `0x811C9DC5`. -/
def calculate_fnv1a_hash (data : List Nat) : Nat :=
  data.foldl fnv1a_step 2166136261

/-- The eight bytes of a 64-bit value in memory order on a little-endian
machine, as hashed by `calculate_entry_checksum` for the timestamp field. -/
def u64_le_bytes (t : Nat) : List Nat :=
  [t % 256, t / 2 ^ 8 % 256, t / 2 ^ 16 % 256, t / 2 ^ 24 % 256,
   t / 2 ^ 32 % 256, t / 2 ^ 40 % 256, t / 2 ^ 48 % 256, t / 2 ^ 56 % 256]

/-- `obi_audit_entry_t`: string fields are byte lists (NUL-free, as hashed
via `strlen`), numeric fields are machine integers. -/
structure ObiAuditEntry where
  timestamp : Nat
  operation : List Nat
  hash_reference : List Nat
  context : List Nat
  compliance_level : List Nat
  sequence_number : Nat
  deriving DecidableEq, Repr

/-- `calculate_entry_checksum`: FNV-1a of the raw timestamp bytes, xored
with the hashes of the `operation`, `hash_reference` and `context` strings
and with the sequence number.  (As in the source, `compliance_level` is
not included.) -/
def calculate_entry_checksum (e : ObiAuditEntry) : Nat :=
  calculate_fnv1a_hash (u64_le_bytes e.timestamp) ^^^
    calculate_fnv1a_hash e.operation ^^^
    calculate_fnv1a_hash e.hash_reference ^^^
    calculate_fnv1a_hash e.context ^^^
    e.sequence_number

/-- `obi_audit_verify_integrity` on parsed log content: each line yields an
entry plus its stored `CHECKSUM` field; the checksum of every entry is
recomputed, and any mismatch makes the verification fail with
`VALIDATION_FAILED`. -/
def obi_audit_verify_integrity (entries : List (ObiAuditEntry × Nat)) : ObiResult :=
  if entries.all (fun p => calculate_entry_checksum p.1 == p.2)
  then .OBI_SUCCESS else .OBI_ERROR_VALIDATION_FAILED

/-- A concrete well-formed audit entry (operation `AUDIT_INIT`, hash
reference `NULL_HASH`, context `SESSION_OBI_0_SEQ_1`, compliance tag
`NASA-STD-8739.8`, sequence number 1). -/
def auditEntryExample : ObiAuditEntry :=
  ⟨1700000000,
   [65,85,68,73,84,95,73,78,73,84],
   [78,85,76,76,95,72,65,83,72],
   [83,69,83,83,73,79,78,95,79,66,73,95,48,95,83,69,81,95,49],
   [78,65,83,65,45,83,84,68,45,56,55,51,57,46,56],
   1⟩

/-- `auditEntryExample` with a single byte of its compliance tag flipped:
the final `8` (byte 56) becomes `9` (byte 57). -/
def auditEntryTampered : ObiAuditEntry :=
  { auditEntryExample with
    compliance_level := [78,65,83,65,45,83,84,68,45,56,55,51,57,46,57] }

/-- C5: the entry checksum does not cover the compliance tag, so flipping a
byte there goes undetected: the tampered entry still verifies successfully
against the original entry's stored checksum, even though the two entries
differ. -/
theorem audit_checksum_skips_compliance_field :
    obi_audit_verify_integrity
      [(auditEntryTampered, calculate_entry_checksum auditEntryExample)] =
      .OBI_SUCCESS ∧
    auditEntryTampered ≠ auditEntryExample :=
  ⟨rfl, by decide⟩

/-! ## Validator construction, from `obi_validator.c` -/

/-- `OBI_EPSILON_MIN`.  Modelled from the spec: the defining header
`obiprotocol.h` is not among the sources; the spec gives the epsilon floor
as `10⁻¹²`. -/
noncomputable def OBI_EPSILON_MIN : ℝ := 1 / 10 ^ 12

/-- `OBI_COST_THRESHOLD`.  Modelled from the spec and the in-source enum
comments: the `AUTONOMOUS` zone bound `0.5` (header not among the sources). -/
noncomputable def OBI_COST_THRESHOLD : ℝ := 1 / 2

/-- `OBI_WARNING_THRESHOLD`.  Modelled from the spec and the in-source enum
comments: the `WARNING` zone bound `0.6` (header not among the sources). -/
noncomputable def OBI_WARNING_THRESHOLD : ℝ := 3 / 5

/-- The literal `1.0001` bound of the parameter constraint
`alpha + beta > 1.0001` (the spec's `1 + 10⁻⁴`). -/
noncomputable def OBI_PARAM_BOUND : ℝ := 10001 / 10000

/-- `obi_validation_context_t` as used by `obi_validator_create` and the
CLI: zero-trust flag, canonical-only flag, the cost parameters, and the
epsilon floor. -/
structure ObiValidationContext where
  zero_trust_enforced : Bool
  canonical_only : Bool
  alpha : ℝ
  beta : ℝ
  epsilon_min : ℝ

/-- The validator state produced by a successful `obi_validator_create`. -/
structure ObiValidator where
  context : ObiValidationContext
  initialized : Bool
  validation_count : Nat

/-- `obi_validator_create` from `obi_validator.c`: reject the parameters
with `NUMERICAL_INSTABILITY` when `alpha < 0`, `beta < 0`, or
`alpha + beta > 1.0001` (freeing the allocation), then reject a disabled
zero-trust flag with `ZERO_TRUST_VIOLATION`; otherwise return the
initialized validator. -/
noncomputable def obi_validator_create (ctx : ObiValidationContext) :
    Except ObiResult ObiValidator :=
  if ctx.alpha < 0 ∨ ctx.beta < 0 ∨ OBI_PARAM_BOUND < ctx.alpha + ctx.beta then
    .error .OBI_ERROR_NUMERICAL_INSTABILITY
  else if ¬ ctx.zero_trust_enforced then .error .OBI_ERROR_ZERO_TRUST_VIOLATION
  else .ok ⟨ctx, true, 0⟩

/-- C9: construction fails with `NUMERICAL_INSTABILITY` exactly when the
parameters violate `alpha ≥ 0`, `beta ≥ 0`, or `alpha + beta ≤ 1.0001`;
in particular `alpha = 0.8`, `beta = 0.5` is rejected (and no validator is
returned on that path). -/
theorem validator_create_numerical_instability_iff :
    (∀ ctx : ObiValidationContext,
      obi_validator_create ctx = .error .OBI_ERROR_NUMERICAL_INSTABILITY ↔
        (ctx.alpha < 0 ∨ ctx.beta < 0 ∨ OBI_PARAM_BOUND < ctx.alpha + ctx.beta)) ∧
    obi_validator_create ⟨true, true, 8 / 10, 5 / 10, OBI_EPSILON_MIN⟩ =
      .error .OBI_ERROR_NUMERICAL_INSTABILITY := by
  constructor
  · intro ctx
    constructor
    · intro h
      by_contra hbad
      rw [obi_validator_create, if_neg hbad] at h
      by_cases hz : ctx.zero_trust_enforced
      · simp [hz] at h
      · simp [hz] at h
    · intro hbad
      rw [obi_validator_create, if_pos hbad]
  · rw [obi_validator_create, if_pos]
    right; right
    rw [OBI_PARAM_BOUND]
    norm_num

/-! ## Cost evaluator, from `obi_validator.c` -/

/-- `obi_kl_divergence`: length-`n` C arrays are `ℕ → ℝ`; entries with
`p[i] <= 0` are skipped, the divisor is clamped from below by
`OBI_EPSILON_MIN`, and a zero length yields the error value `-1`. -/
noncomputable def obi_kl_divergence (n : ℕ) (p q : ℕ → ℝ) : ℝ :=
  if n = 0 then -1
  else ∑ i ∈ Finset.range n,
    (if p i ≤ 0 then 0
     else p i * Real.logb 2 (p i / (if q i < OBI_EPSILON_MIN then OBI_EPSILON_MIN else q i)))

/-- The Shannon-entropy accumulation loop inside
`obi_calculate_traversal_cost` (terms with non-positive mass skipped). -/
noncomputable def obi_entropy (n : ℕ) (p : ℕ → ℝ) : ℝ :=
  ∑ i ∈ Finset.range n, (if 0 < p i then -(p i * Real.logb 2 (p i)) else 0)

/-- `obi_calculate_traversal_cost`: `-1` on a zero length, on a parameter
violation (`alpha < 0`, `beta < 0`, or `alpha + beta > 1.0001`), or on a
negative KL component; otherwise
`alpha * KL(p‖q) + beta * (H(p) - H(q))`. -/
noncomputable def obi_calculate_traversal_cost (n : ℕ) (p q : ℕ → ℝ)
    (alpha beta : ℝ) : ℝ :=
  if n = 0 then -1
  else if alpha < 0 ∨ beta < 0 ∨ OBI_PARAM_BOUND < alpha + beta then -1
  else if obi_kl_divergence n p q < 0 then -1
  else alpha * obi_kl_divergence n p q + beta * (obi_entropy n p - obi_entropy n q)

/-- `obi_governance_zone_t`. -/
inductive ObiGovernanceZone where
  | OBI_ZONE_AUTONOMOUS
  | OBI_ZONE_WARNING
  | OBI_ZONE_GOVERNANCE
  deriving DecidableEq, Repr

/-- `obi_assess_governance_zone`: `AUTONOMOUS` up to `0.5`, `WARNING` up to
`0.6`, `GOVERNANCE` above. -/
noncomputable def obi_assess_governance_zone (cost : ℝ) : ObiGovernanceZone :=
  if cost ≤ OBI_COST_THRESHOLD then .OBI_ZONE_AUTONOMOUS
  else if cost ≤ OBI_WARNING_THRESHOLD then .OBI_ZONE_WARNING
  else .OBI_ZONE_GOVERNANCE

/-- The alphabet size `n = min(length, 16)` of
`validate_mathematical_properties`. -/
def kOf (data : List Nat) : ℕ := min data.length 16

/-- The distribution `P` built by `validate_mathematical_properties`:
`pi[i] = (data[i] + 1) / 256`, then divided by the sum over the first
`kOf data` entries. -/
noncomputable def distP (data : List Nat) (i : ℕ) : ℝ :=
  (((data.getD i 0 : ℕ) : ℝ) + 1) / 256 /
    (∑ j ∈ Finset.range (kOf data), (((data.getD j 0 : ℕ) : ℝ) + 1) / 256)

/-- The uniform comparison distribution `Q` of
`validate_mathematical_properties`: `pj[i] = 1 / n`. -/
noncomputable def distQ (k : ℕ) (i : ℕ) : ℝ := 1 / k


/-- The alphabet size is positive for a non-empty payload. -/
theorem kOf_pos {data : List Nat} (h : data ≠ []) : 0 < kOf data := by
  rw [kOf, lt_min_iff]
  exact ⟨List.length_pos.mpr h, by norm_num⟩

/-- The alphabet size never exceeds 16. -/
theorem kOf_le_16 (data : List Nat) : kOf data ≤ 16 :=
  Nat.min_le_right _ _

/-- The normalization constant of `distP` is positive. -/
theorem distP_denom_pos {data : List Nat} (h : data ≠ []) :
    0 < ∑ j ∈ Finset.range (kOf data), (((data.getD j 0 : ℕ) : ℝ) + 1) / 256 := by
  apply Finset.sum_pos
  · intro j _
    positivity
  · rw [Finset.nonempty_range_iff]
    exact (kOf_pos h).ne'

/-- Every entry of `distP` is positive. -/
theorem distP_pos {data : List Nat} (h : data ≠ []) (i : ℕ) : 0 < distP data i :=
  div_pos (by positivity) (distP_denom_pos h)

/-- `distP` sums to 1 over the alphabet. -/
theorem distP_sum_one {data : List Nat} (h : data ≠ []) :
    ∑ i ∈ Finset.range (kOf data), distP data i = 1 := by
  unfold distP
  rw [← Finset.sum_div]
  exact div_self (distP_denom_pos h).ne'

/-- The epsilon floor never clamps the uniform distribution: `1/k ≥ 1/16`
is far above `10⁻¹²`. -/
theorem distQ_not_clamped {data : List Nat} (h : data ≠ []) (i : ℕ) :
    ¬ distQ (kOf data) i < OBI_EPSILON_MIN := by
  rw [not_lt, distQ, OBI_EPSILON_MIN]
  have hkpos : (0 : ℝ) < (kOf data : ℝ) := by exact_mod_cast kOf_pos h
  have hk16 : ((kOf data : ℕ) : ℝ) ≤ 16 := by exact_mod_cast kOf_le_16 data
  calc (1 : ℝ) / 10 ^ 12 ≤ 1 / 16 := by norm_num
    _ ≤ 1 / (kOf data : ℝ) := one_div_le_one_div_of_le hkpos hk16

/-- On the distributions of `validate_mathematical_properties`, the KL
component reduces to `∑ P i * log₂(P i * k)`: no entry is skipped and the
epsilon clamp is inactive. -/
theorem kl_uniform_repr {data : List Nat} (h : data ≠ []) :
    obi_kl_divergence (kOf data) (distP data) (distQ (kOf data)) =
      ∑ i ∈ Finset.range (kOf data),
        distP data i * Real.logb 2 (distP data i * (kOf data : ℝ)) := by
  rw [obi_kl_divergence, if_neg (kOf_pos h).ne']
  apply Finset.sum_congr rfl
  intro i _
  rw [if_neg (not_le.mpr (distP_pos h i)), if_neg (distQ_not_clamped h i)]
  rw [distQ, one_div, div_inv_eq_mul]

/-- Elementary lower bound `log x ≥ 1 - 1/x` for positive `x`. -/
theorem one_sub_inv_le_log {x : ℝ} (hx : 0 < x) : 1 - x⁻¹ ≤ Real.log x := by
  have h := Real.log_le_sub_one_of_pos (inv_pos.mpr hx)
  rw [Real.log_inv] at h
  linarith

/-- Gibbs' inequality for the derived distribution against the uniform
distribution: the KL component is non-negative. -/
theorem kl_uniform_nonneg {data : List Nat} (h : data ≠ []) :
    0 ≤ obi_kl_divergence (kOf data) (distP data) (distQ (kOf data)) := by
  rw [kl_uniform_repr h]
  have hlog2 : 0 < Real.log 2 := Real.log_pos one_lt_two
  have hkpos : (0 : ℝ) < (kOf data : ℝ) := by exact_mod_cast kOf_pos h
  have key : ∀ i ∈ Finset.range (kOf data),
      (distP data i - 1 / (kOf data : ℝ)) / Real.log 2 ≤
        distP data i * Real.logb 2 (distP data i * (kOf data : ℝ)) := by
    intro i _
    have hppos : 0 < distP data i := distP_pos h i
    have hxpos : 0 < distP data i * (kOf data : ℝ) := mul_pos hppos hkpos
    have h1 : 1 - (distP data i * (kOf data : ℝ))⁻¹ ≤
        Real.log (distP data i * (kOf data : ℝ)) := one_sub_inv_le_log hxpos
    have h2 : distP data i * (1 - (distP data i * (kOf data : ℝ))⁻¹) ≤
        distP data i * Real.log (distP data i * (kOf data : ℝ)) :=
      mul_le_mul_of_nonneg_left h1 hppos.le
    have h3 : distP data i * (1 - (distP data i * (kOf data : ℝ))⁻¹) =
        distP data i - 1 / (kOf data : ℝ) := by
      field_simp
      ring
    rw [Real.logb, ← mul_div_assoc, div_le_div_iff hlog2 hlog2]
    calc (distP data i - 1 / (kOf data : ℝ)) * Real.log 2
        = (distP data i * (1 - (distP data i * (kOf data : ℝ))⁻¹)) * Real.log 2 := by
          rw [h3]
      _ ≤ (distP data i * Real.log (distP data i * (kOf data : ℝ))) * Real.log 2 :=
          mul_le_mul_of_nonneg_right h2 hlog2.le
  have hzero : (0 : ℝ) =
      ∑ i ∈ Finset.range (kOf data),
        (distP data i - 1 / (kOf data : ℝ)) / Real.log 2 := by
    rw [← Finset.sum_div, Finset.sum_sub_distrib, distP_sum_one h,
      Finset.sum_const, Finset.card_range, nsmul_eq_mul, mul_one_div,
      div_self hkpos.ne', sub_self, zero_div]
  rw [hzero]
  exact Finset.sum_le_sum key

/-- The entropy of the derived distribution, with the positivity guards
discharged. -/
theorem entropy_distP_repr {data : List Nat} (h : data ≠ []) :
    obi_entropy (kOf data) (distP data) =
      -∑ i ∈ Finset.range (kOf data), distP data i * Real.logb 2 (distP data i) := by
  rw [obi_entropy, ← Finset.sum_neg_distrib]
  exact Finset.sum_congr rfl fun i _ => if_pos (distP_pos h i)

/-- The entropy of the uniform distribution on `k` points is `log₂ k`. -/
theorem entropy_distQ_eq {k : ℕ} (hk : 0 < k) :
    obi_entropy k (distQ k) = Real.logb 2 (k : ℝ) := by
  have hkpos : (0 : ℝ) < (k : ℝ) := by exact_mod_cast hk
  rw [obi_entropy]
  have hterm : ∀ i ∈ Finset.range k,
      (if 0 < distQ k i then -(distQ k i * Real.logb 2 (distQ k i)) else 0) =
        1 / (k : ℝ) * Real.logb 2 (k : ℝ) := by
    intro i _
    rw [if_pos (by rw [distQ]; positivity)]
    rw [distQ, one_div, Real.logb_inv]
    ring
  rw [Finset.sum_congr rfl hterm, Finset.sum_const, Finset.card_range,
    nsmul_eq_mul, ← mul_assoc, mul_one_div, div_self hkpos.ne', one_mul]

/-- The KL component against the uniform distribution equals
`log₂ k - H(P)`. -/
theorem kl_entropy_identity {data : List Nat} (h : data ≠ []) :
    obi_kl_divergence (kOf data) (distP data) (distQ (kOf data)) =
      Real.logb 2 ((kOf data : ℕ) : ℝ) - obi_entropy (kOf data) (distP data) := by
  have hkpos : (0 : ℝ) < (kOf data : ℝ) := by exact_mod_cast kOf_pos h
  rw [kl_uniform_repr h, entropy_distP_repr h]
  have hterm : ∀ i ∈ Finset.range (kOf data),
      distP data i * Real.logb 2 (distP data i * (kOf data : ℝ)) =
        distP data i * Real.logb 2 (distP data i) +
          distP data i * Real.logb 2 ((kOf data : ℕ) : ℝ) := by
    intro i _
    rw [Real.logb_mul (distP_pos h i).ne' hkpos.ne']
    ring
  rw [Finset.sum_congr rfl hterm, Finset.sum_add_distrib, ← Finset.sum_mul,
    distP_sum_one h, one_mul]
  ring

/-- Numeric bound used for the concrete cost evaluations:
`log₂ 3 < 5/3`, i.e. `27 < 32`. -/
theorem logb_two_three_lt : Real.logb 2 3 < 5 / 3 := by
  rw [Real.logb, div_lt_iff (Real.log_pos one_lt_two)]
  have h1 : Real.log 27 < Real.log 32 := Real.log_lt_log (by norm_num) (by norm_num)
  have h2 : Real.log 27 = 3 * Real.log 3 := by
    rw [show (27 : ℝ) = 3 ^ (3 : ℕ) by norm_num, Real.log_pow]
    norm_num
  have h3 : Real.log 32 = 5 * Real.log 2 := by
    rw [show (32 : ℝ) = 2 ^ (5 : ℕ) by norm_num, Real.log_pow]
    norm_num
  linarith

/-- C4 counterexample: on the normalized two-byte payload `[0, 1]` (a fixed
point of `obi_normalize_buffer`) with the valid parameters `alpha = 0`,
`beta = 1`, the cost computed by `obi_calculate_traversal_cost` on the
distributions of `validate_mathematical_properties` is strictly negative. -/
theorem traversal_cost_negative_for_beta_gt_alpha :
    obi_normalize_buffer obi_normalizer_create [0, 1] 8192 = .ok [0, 1] ∧
    obi_calculate_traversal_cost (kOf [0, 1]) (distP [0, 1]) (distQ (kOf [0, 1]))
      0 1 < 0 := by
  refine ⟨rfl, ?_⟩
  have hd : ([0, 1] : List Nat) ≠ [] := by decide
  have hk2 : kOf [0, 1] = 2 := by decide
  have hP0 : distP [0, 1] 0 = 1 / 3 := by
    unfold distP
    rw [hk2, Finset.sum_range_succ, Finset.sum_range_one]
    norm_num [List.getD]
  have hP1 : distP [0, 1] 1 = 2 / 3 := by
    unfold distP
    rw [hk2, Finset.sum_range_succ, Finset.sum_range_one]
    norm_num [List.getD]
  have hkl0 : 0 ≤ obi_kl_divergence (kOf [0, 1]) (distP [0, 1]) (distQ (kOf [0, 1])) :=
    kl_uniform_nonneg hd
  have e1 : Real.logb 2 ((2 : ℝ) / 3) = 1 - Real.logb 2 3 := by
    rw [Real.logb_div (by norm_num) (by norm_num), Real.logb_self_eq_one one_lt_two]
  have e2 : Real.logb 2 ((4 : ℝ) / 3) = 2 - Real.logb 2 3 := by
    rw [Real.logb_div (by norm_num) (by norm_num),
      show (4 : ℝ) = 2 ^ (2 : ℕ) by norm_num, Real.logb_pow,
      Real.logb_self_eq_one one_lt_two]
    norm_num
  have hklval : obi_kl_divergence (kOf [0, 1]) (distP [0, 1]) (distQ (kOf [0, 1])) =
      5 / 3 - Real.logb 2 3 := by
    rw [kl_uniform_repr hd, hk2, Finset.sum_range_succ, Finset.sum_range_one,
      hP0, hP1]
    rw [show ((2 : ℕ) : ℝ) = 2 by norm_num]
    rw [show (1 : ℝ) / 3 * 2 = 2 / 3 by norm_num,
      show (2 : ℝ) / 3 * 2 = 4 / 3 by norm_num, e1, e2]
    ring
  have hid := kl_entropy_identity hd
  have hHQ := entropy_distQ_eq (kOf_pos hd)
  rw [obi_calculate_traversal_cost,
    if_neg (by rw [hk2]; norm_num : ¬ kOf [0, 1] = 0),
    if_neg (by norm_num [OBI_PARAM_BOUND]), if_neg (not_lt.mpr hkl0)]
  have hL3 := logb_two_three_lt
  linarith [hid, hHQ, hklval, hL3]

/-- C4 amended: for every non-empty payload and every valid parameter pair
with `beta ≤ alpha`, the computed cost is non-negative (the cost equals
`(alpha - beta) · KL(P‖Q)`, and the KL component is non-negative). -/
theorem traversal_cost_nonneg_of_beta_le_alpha (data : List Nat) (alpha beta : ℝ)
    (hd : data ≠ []) (hb : 0 ≤ beta) (hba : beta ≤ alpha)
    (hab : alpha + beta ≤ OBI_PARAM_BOUND) :
    0 ≤ obi_calculate_traversal_cost (kOf data) (distP data) (distQ (kOf data))
      alpha beta := by
  have hkl0 : 0 ≤ obi_kl_divergence (kOf data) (distP data) (distQ (kOf data)) :=
    kl_uniform_nonneg hd
  have hguard : ¬(alpha < 0 ∨ beta < 0 ∨ OBI_PARAM_BOUND < alpha + beta) := by
    push_neg
    exact ⟨le_trans hb hba, hb, hab⟩
  rw [obi_calculate_traversal_cost, if_neg (kOf_pos hd).ne', if_neg hguard,
    if_neg (not_lt.mpr hkl0)]
  have hid := kl_entropy_identity hd
  have hHQ := entropy_distQ_eq (kOf_pos hd)
  have heq : alpha * obi_kl_divergence (kOf data) (distP data) (distQ (kOf data)) +
      beta * (obi_entropy (kOf data) (distP data) -
        obi_entropy (kOf data) (distQ (kOf data))) =
      (alpha - beta) * obi_kl_divergence (kOf data) (distP data) (distQ (kOf data)) := by
    rw [hHQ]
    have hHP : obi_entropy (kOf data) (distP data) =
        Real.logb 2 ((kOf data : ℕ) : ℝ) -
          obi_kl_divergence (kOf data) (distP data) (distQ (kOf data)) := by
      linarith [hid]
    rw [hHP]
    ring
  rw [heq]
  exact mul_nonneg (by linarith) hkl0

/-- Witness for the amended C4 at the payload `[0, 1]` with
`alpha = 1/2`, `beta = 1/4`. -/
theorem traversal_cost_nonneg_of_beta_le_alpha_witness :
    0 ≤ obi_calculate_traversal_cost (kOf [0, 1]) (distP [0, 1]) (distQ (kOf [0, 1]))
      (1 / 2) (1 / 4) :=
  traversal_cost_nonneg_of_beta_le_alpha [0, 1] (1 / 2) (1 / 4) (by decide)
    (by norm_num) (by norm_num) (by norm_num [OBI_PARAM_BOUND])

/-- C8: when the derived distribution `P` coincides with the uniform
comparison distribution `Q` on the alphabet, the computed cost is exactly 0
and `obi_assess_governance_zone` classifies it as `AUTONOMOUS`. -/
theorem cost_identity_autonomous (data : List Nat) (alpha beta : ℝ)
    (hd : data ≠ [])
    (hPQ : ∀ i ∈ Finset.range (kOf data), distP data i = distQ (kOf data) i)
    (ha : 0 ≤ alpha) (hb : 0 ≤ beta) (hab : alpha + beta ≤ OBI_PARAM_BOUND) :
    obi_calculate_traversal_cost (kOf data) (distP data) (distQ (kOf data))
      alpha beta = 0 ∧
    obi_assess_governance_zone
      (obi_calculate_traversal_cost (kOf data) (distP data) (distQ (kOf data))
        alpha beta) = .OBI_ZONE_AUTONOMOUS := by
  have hk0 : ((kOf data : ℕ) : ℝ) ≠ 0 := by
    exact_mod_cast (kOf_pos hd).ne'
  have hkl : obi_kl_divergence (kOf data) (distP data) (distQ (kOf data)) = 0 := by
    rw [kl_uniform_repr hd]
    apply Finset.sum_eq_zero
    intro i hi
    rw [hPQ i hi, distQ, one_div, inv_mul_cancel₀ hk0, Real.logb_one, mul_zero]
  have hent : obi_entropy (kOf data) (distP data) =
      obi_entropy (kOf data) (distQ (kOf data)) := by
    rw [obi_entropy, obi_entropy]
    exact Finset.sum_congr rfl fun i hi => by rw [hPQ i hi]
  have hguard : ¬(alpha < 0 ∨ beta < 0 ∨ OBI_PARAM_BOUND < alpha + beta) := by
    push_neg
    exact ⟨ha, hb, hab⟩
  have hcost : obi_calculate_traversal_cost (kOf data) (distP data)
      (distQ (kOf data)) alpha beta = 0 := by
    rw [obi_calculate_traversal_cost, if_neg (kOf_pos hd).ne', if_neg hguard,
      if_neg (not_lt.mpr (le_of_eq hkl.symm)), hkl, hent]
    ring
  refine ⟨hcost, ?_⟩
  rw [hcost, obi_assess_governance_zone,
    if_pos (by norm_num [OBI_COST_THRESHOLD] : (0 : ℝ) ≤ OBI_COST_THRESHOLD)]

/-- Witness for C8 at the constant payload `[7, 7]` (whose derived
distribution is uniform) with `alpha = 1/4`, `beta = 1/4`. -/
theorem cost_identity_autonomous_witness :
    obi_calculate_traversal_cost (kOf [7, 7]) (distP [7, 7]) (distQ (kOf [7, 7]))
      (1 / 4) (1 / 4) = 0 ∧
    obi_assess_governance_zone
      (obi_calculate_traversal_cost (kOf [7, 7]) (distP [7, 7]) (distQ (kOf [7, 7]))
        (1 / 4) (1 / 4)) = .OBI_ZONE_AUTONOMOUS :=
  cost_identity_autonomous [7, 7] (1 / 4) (1 / 4) (by decide)
    (by
      intro i hi
      have hk2 : kOf [7, 7] = 2 := by decide
      rw [hk2] at hi
      have hi2 : i < 2 := Finset.mem_range.mp hi
      interval_cases i <;>
        · unfold distP distQ
          rw [hk2, Finset.sum_range_succ, Finset.sum_range_one]
          norm_num [List.getD])
    (by norm_num) (by norm_num) (by norm_num [OBI_PARAM_BOUND])

/-! ## Error characterization of `obi_normalize_buffer` -/

/-- Any table row returned by `findMapping` has a non-empty canonical form. -/
theorem findMapping_canonical_pos {input : List Nat} {outLen : Nat} {m : UscnMapping}
    (h : findMapping input outLen = some m) : 0 < m.canonical.length := by
  rw [findMapping] at h
  have hmem : m ∈ uscn_mappings := List.mem_of_find?_eq_some h
  fin_cases hmem <;> decide

/-- Any table row returned by `findMapping` fits the output buffer. -/
theorem findMapping_room {input : List Nat} {outLen : Nat} {m : UscnMapping}
    (h : findMapping input outLen = some m) :
    outLen + m.canonical.length < USCN_CANONICAL_BUFFER_SIZE := by
  rw [findMapping] at h
  have hp := List.find?_some h
  simp only [Bool.and_eq_true, decide_eq_true_eq] at hp
  exact hp.2

/-- The mapping loop never produces more than
`USCN_CANONICAL_BUFFER_SIZE - 1` output bytes. -/
theorem acmGo_length_le (fuel : Nat) :
    ∀ (input out : List Nat), out.length ≤ USCN_CANONICAL_BUFFER_SIZE - 1 →
      (acmGo fuel input out).length ≤ USCN_CANONICAL_BUFFER_SIZE - 1 := by
  induction fuel with
  | zero => intro input out h; simpa [acmGo] using h
  | succ n ih =>
    intro input out h
    cases input with
    | nil => simpa [acmGo] using h
    | cons c rest =>
      by_cases hcap : USCN_CANONICAL_BUFFER_SIZE - 1 ≤ out.length
      · simp only [acmGo, if_pos hcap]
        exact h
      · cases hfm : findMapping (c :: rest) out.length with
        | some m =>
          simp only [acmGo, if_neg hcap, hfm]
          apply ih
          have hroom := findMapping_room hfm
          rw [List.length_append]
          simp only [USCN_CANONICAL_BUFFER_SIZE] at hroom ⊢
          omega
        | none =>
          simp only [acmGo, if_neg hcap, hfm]
          apply ih
          rw [List.length_append, List.length_singleton]
          simp only [USCN_CANONICAL_BUFFER_SIZE] at hcap ⊢
          omega

/-- The mapping loop never shrinks the accumulated output. -/
theorem acmGo_length_ge (fuel : Nat) :
    ∀ (input out : List Nat), out.length ≤ (acmGo fuel input out).length := by
  induction fuel with
  | zero => intro input out; simp [acmGo]
  | succ n ih =>
    intro input out
    cases input with
    | nil => simp [acmGo]
    | cons c rest =>
      by_cases hcap : USCN_CANONICAL_BUFFER_SIZE - 1 ≤ out.length
      · simp only [acmGo, if_pos hcap]
        exact le_refl _
      · cases hfm : findMapping (c :: rest) out.length with
        | some m =>
          simp only [acmGo, if_neg hcap, hfm]
          calc out.length ≤ (out ++ m.canonical).length := by simp
            _ ≤ _ := ih _ _
        | none =>
          simp only [acmGo, if_neg hcap, hfm]
          calc out.length ≤ (out ++ [c]).length := by simp
            _ ≤ _ := ih _ _

/-- The mapping pass yields an empty output exactly on an empty input. -/
theorem apply_character_mappings_eq_nil_iff (data : List Nat) :
    apply_character_mappings data = [] ↔ data = [] := by
  constructor
  · intro h
    by_contra hne
    obtain ⟨c, rest, rfl⟩ := List.exists_cons_of_ne_nil hne
    have hpos : 0 < (apply_character_mappings (c :: rest)).length := by
      rw [apply_character_mappings, List.length_cons]
      have hcap : ¬ USCN_CANONICAL_BUFFER_SIZE - 1 ≤ (List.nil (α := Nat)).length := by
        simp [USCN_CANONICAL_BUFFER_SIZE]
      cases hfm : findMapping (c :: rest) (List.nil (α := Nat)).length with
      | some m =>
        simp only [acmGo, if_neg hcap, hfm]
        calc 0 < (List.nil ++ m.canonical).length := by
              simpa using findMapping_canonical_pos hfm
          _ ≤ _ := acmGo_length_ge _ _ _
      | none =>
        simp only [acmGo, if_neg hcap, hfm]
        calc 0 < (List.nil ++ [c]).length := by simp
          _ ≤ _ := acmGo_length_ge _ _ _
    rw [h] at hpos
    simp at hpos
  · rintro rfl
    rfl

/-- The whitespace-collapsing pass never grows its input. -/
theorem nwCollapse_length_le (l : List Nat) :
    ∀ b : Bool, (nwCollapse l b).length ≤ l.length := by
  induction l with
  | nil => intro b; simp [nwCollapse]
  | cons c rest ih =>
    intro b
    rw [nwCollapse]
    by_cases hs : byte_isspace c = true
    · rw [if_pos hs]
      by_cases hb : b = true
      · rw [if_pos hb]
        exact le_trans (ih true) (by simp)
      · rw [if_neg hb]
        simpa using ih true
    · rw [if_neg hs]
      simpa using ih false

/-- Trimming trailing spaces never grows its input. -/
theorem trimTrailingSpaces_length_le (l : List Nat) :
    (trimTrailingSpaces l).length ≤ l.length := by
  rw [trimTrailingSpaces, List.length_reverse]
  calc (l.reverse.dropWhile fun c => c == 32).length ≤ l.reverse.length :=
        (List.dropWhile_sublist _).length_le
    _ = l.length := List.length_reverse l

/-- `normalize_whitespace` never grows its input. -/
theorem normalize_whitespace_length_le (l : List Nat) :
    (normalize_whitespace l).length ≤ l.length :=
  le_trans (trimTrailingSpaces_length_le _) (nwCollapse_length_le l false)

/-- `normalize_case` preserves length. -/
theorem normalize_case_length (l : List Nat) (cs : Bool) :
    (normalize_case l cs).length = l.length := by
  cases cs <;> simp [normalize_case]

/-- The canonical form always fits the canonical buffer. -/
theorem canonical_form_length_lt (nz : ObiNormalizer) (data : List Nat) :
    (canonical_form nz data).length < USCN_CANONICAL_BUFFER_SIZE := by
  have h1 : (apply_character_mappings data).length ≤ USCN_CANONICAL_BUFFER_SIZE - 1 :=
    acmGo_length_le data.length data [] (by simp)
  have h2 : (canonical_form nz data).length ≤ (apply_character_mappings data).length := by
    rw [canonical_form]
    by_cases hw : nz.whitespace_normalize = true
    · rw [if_pos hw]
      exact le_trans (normalize_whitespace_length_le _) (le_of_eq (normalize_case_length _ _))
    · rw [if_neg hw]
      exact le_of_eq (normalize_case_length _ _)
  simp only [USCN_CANONICAL_BUFFER_SIZE] at h1 ⊢
  omega

/-- Unfolding of `obi_normalize_buffer` in terms of `canonical_form`. -/
theorem obi_normalize_buffer_eq (nz : ObiNormalizer) (data : List Nat) (max_size : Nat) :
    obi_normalize_buffer nz data max_size =
      if (apply_character_mappings data).length = 0 then
        .error .OBI_ERROR_NORMALIZATION_FAILED
      else if USCN_CANONICAL_BUFFER_SIZE ≤ (canonical_form nz data).length then
        .error .OBI_ERROR_BUFFER_OVERFLOW
      else if max_size < (canonical_form nz data).length then
        .error .OBI_ERROR_BUFFER_OVERFLOW
      else .ok (canonical_form nz data) := rfl

/-- C6 amended: `obi_normalize_buffer` fails with `NORMALIZATION_FAILED`
exactly on the empty input (the emptiness check runs before whitespace
folding, so whitespace-only inputs succeed with empty output); an output
exceeding `max_size` fails with `BUFFER_OVERFLOW`; in every other case it
succeeds with the canonical form and sets the normalized flag. -/
theorem normalize_buffer_error_characterization (data : List Nat) (max_size : Nat) :
    (obi_normalize_buffer obi_normalizer_create data max_size =
        .error .OBI_ERROR_NORMALIZATION_FAILED ↔ data = []) ∧
    (data ≠ [] →
      (obi_normalize_buffer obi_normalizer_create data max_size =
          .error .OBI_ERROR_BUFFER_OVERFLOW ↔
        max_size < (canonical_form obi_normalizer_create data).length)) ∧
    (data ≠ [] → (canonical_form obi_normalizer_create data).length ≤ max_size →
      obi_normalize_buffer obi_normalizer_create data max_size =
        .ok (canonical_form obi_normalizer_create data)) := by
  have hncap : ¬ USCN_CANONICAL_BUFFER_SIZE ≤
      (canonical_form obi_normalizer_create data).length :=
    not_le.mpr (canonical_form_length_lt obi_normalizer_create data)
  refine ⟨?_, ?_, ?_⟩
  · rw [obi_normalize_buffer_eq]
    constructor
    · intro h
      by_contra hne
      have h0 : ¬ (apply_character_mappings data).length = 0 := fun h0 =>
        hne ((apply_character_mappings_eq_nil_iff data).mp (List.length_eq_zero.mp h0))
      rw [if_neg h0, if_neg hncap] at h
      by_cases hms : max_size < (canonical_form obi_normalizer_create data).length
      · rw [if_pos hms] at h
        exact ObiResult.noConfusion (Except.error.inj h)
      · rw [if_neg hms] at h
        exact Except.noConfusion h
    · rintro rfl
      rw [if_pos (show (apply_character_mappings []).length = 0 from rfl)]
  · intro hne
    have h0 : ¬ (apply_character_mappings data).length = 0 := fun h0 =>
      hne ((apply_character_mappings_eq_nil_iff data).mp (List.length_eq_zero.mp h0))
    rw [obi_normalize_buffer_eq, if_neg h0, if_neg hncap]
    constructor
    · intro h
      by_contra hms
      rw [if_neg hms] at h
      exact Except.noConfusion h
    · intro hms
      rw [if_pos hms]
  · intro hne hle
    have h0 : ¬ (apply_character_mappings data).length = 0 := fun h0 =>
      hne ((apply_character_mappings_eq_nil_iff data).mp (List.length_eq_zero.mp h0))
    rw [obi_normalize_buffer_eq, if_neg h0, if_neg hncap, if_neg (not_lt.mpr hle)]

/-- Witness for the amended C6 at concrete inputs: a one-byte payload with
a one-byte budget succeeds with its canonical form, and with a zero budget
fails with `BUFFER_OVERFLOW`. -/
theorem normalize_buffer_error_characterization_witness :
    obi_normalize_buffer obi_normalizer_create [97] 1 =
      .ok (canonical_form obi_normalizer_create [97]) ∧
    obi_normalize_buffer obi_normalizer_create [97] 0 =
      .error .OBI_ERROR_BUFFER_OVERFLOW :=
  ⟨(normalize_buffer_error_characterization [97] 1).2.2 (by decide) (by decide),
   ((normalize_buffer_error_characterization [97] 0).2.1 (by decide)).mpr (by decide)⟩
